import Mathlib

/-!
Verification of the Emby_auto synchronization scripts.

The development shallowly embeds the Python sources:
* `src/localfile.py` (deterministic traversal, empty-directory pruning),
* `src/openlist.py` and `src/rclone_client.py` (the two remote-client variants),
* `run.py` (upload orchestrator, lock/log wrapper) and
* `remove_local.py` (verify-and-delete orchestrator).

Python strings are modelled as `List Char` (written `Str`); the filesystem is
modelled by explicit tree values; every external effect (network call, tool
invocation, lock state, file deletion) is driven by explicit world parameters
so that the control flow of the scripts becomes a pure function.
-/

/-- Python strings, modelled as lists of characters. -/
abbrev Str := List Char

/-! ## Basic Python string operations -/

/-- `s.replace(c, d)` for single characters. -/
def pyReplace (c d : Char) (s : Str) : Str :=
  s.map (fun x => if x = c then d else x)

/-- `s.rstrip(c)` for a single character: drop trailing copies of `c`. -/
def pyRstrip (c : Char) (s : Str) : Str :=
  (s.reverse.dropWhile (· = c)).reverse

/-- Python whitespace characters recognised by `str.strip()`. -/
def pyIsSpace (ch : Char) : Bool :=
  ch = ' ' || ch = '\t' || ch = '\n' || ch = '\x0d' || ch = '\x0b' || ch = '\x0c'

/-- `s.strip()`: remove leading and trailing whitespace. -/
def pyStrip (s : Str) : Str :=
  ((s.dropWhile pyIsSpace).reverse.dropWhile pyIsSpace).reverse

/-- `s.split(sep)` for a one-character separator, keeping empty pieces,
exactly as in Python (`"".split(c) == [""]`). -/
def pySplitChar (c : Char) : Str → List Str
  | [] => [[]]
  | x :: xs =>
    match pySplitChar c xs with
    | [] => [[x]]
    | h :: t => if x = c then [] :: h :: t else (x :: h) :: t

/-- `entry.split("=>", 1)`: split at the first occurrence of `=>`;
`none` when the entry does not contain `=>`. -/
def splitFirstArrow : Str → Option (Str × Str)
  | [] => none
  | '=' :: rest =>
    match rest with
    | '>' :: rest2 => some ([], rest2)
    | _ =>
      match splitFirstArrow rest with
      | none => none
      | some (a, b) => some ('=' :: a, b)
  | c :: rest =>
    match splitFirstArrow rest with
    | none => none
    | some (a, b) => some (c :: a, b)

/-! ## Environment configuration (`os.getenv` world) -/

/-- The environment variables consulted by the two scripts.  `none` models an
unset variable; `some []` a variable set to the empty string. -/
structure Env where
  LOCAL_REMOTE_MAPS : Option Str := none
  LOCAL_SOURCE_DIRS : Option Str := none
  LOCAL_SOURCE_DIR : Option Str := none
  RCLONE_REMOTE_ROOT : Option Str := none
  OPENLIST_REMOTE_ROOT : Option Str := none
  RCLONE_REMOTE : Option Str := none

/-- Python truthiness of an optional string (`None` and `""` are falsy). -/
def truthy : Option Str → Bool
  | none => false
  | some s => s ≠ []

/-- Python `a or b` over optional env values: `a` when truthy, else `b`. -/
def pyOr (a b : Option Str) : Option Str :=
  if truthy a then a else b

/-- `_split_env_values` (identical in `run.py` and `remove_local.py`):
split a raw value on `;`, `,` and newline, strip each part, drop empties. -/
def split_env_values (raw : Str) : List Str :=
  (((([raw].flatMap (pySplitChar ';')).flatMap
      (pySplitChar ',')).flatMap (pySplitChar '\n')).map pyStrip).filter (· ≠ [])

/-- The first-occurrence de-duplication loop used by `load_source_dirs`
(and, for pairs, by `remove_local.load_directory_pairs`). -/
def dedupLoop {α : Type} [DecidableEq α] (seen : List α) : List α → List α
  | [] => []
  | x :: xs =>
    if x ∈ seen then dedupLoop seen xs
    else x :: dedupLoop (x :: seen) xs

/-- `load_source_dirs` (identical in both scripts): gather
`LOCAL_SOURCE_DIRS` entries plus the stripped `LOCAL_SOURCE_DIR`, keeping the
first occurrence of each directory. -/
def load_source_dirs (env : Env) : List Str :=
  let dirs :=
    (if truthy env.LOCAL_SOURCE_DIRS then
        split_env_values (env.LOCAL_SOURCE_DIRS.getD []) else []) ++
    (if truthy env.LOCAL_SOURCE_DIR then
        [pyStrip (env.LOCAL_SOURCE_DIR.getD [])] else [])
  dedupLoop [] dirs

/-- Parse one `local=>remote` mapping entry; `none` models the two skip
branches (missing `=>`, or an empty side after stripping). -/
def parse_map_entry (entry : Str) : Option (Str × Str) :=
  match splitFirstArrow entry with
  | none => none
  | some (localRaw, remoteRaw) =>
    let localDir := pyStrip localRaw
    let remoteRoot := pyStrip remoteRaw
    if localDir = [] || remoteRoot = [] then none
    else some (localDir, remoteRoot)

/-- The explicit mapping entries parsed from `LOCAL_REMOTE_MAPS`. -/
def map_entries (env : Env) : List (Str × Str) :=
  if truthy env.LOCAL_REMOTE_MAPS then
    (split_env_values (env.LOCAL_REMOTE_MAPS.getD [])).filterMap parse_map_entry
  else []

/-- The fallback remote root: `os.getenv("RCLONE_REMOTE_ROOT") or
os.getenv("OPENLIST_REMOTE_ROOT")`. -/
def fallback_remote (env : Env) : Option Str :=
  pyOr env.RCLONE_REMOTE_ROOT env.OPENLIST_REMOTE_ROOT

namespace Run

/-- `load_directory_pairs` as written in `run.py`: explicit mapping entries
are kept verbatim (duplicates included); otherwise every source directory is
paired with the fallback remote root. -/
def load_directory_pairs (env : Env) : List (Str × Str) :=
  if map_entries env ≠ [] then map_entries env
  else if truthy (fallback_remote env) = true ∧ load_source_dirs env ≠ [] then
    (load_source_dirs env).map (fun s => (s, (fallback_remote env).getD []))
  else []

end Run

namespace RemoveLocal

/-- `load_directory_pairs` as written in `remove_local.py`: identical to the
`run.py` copy except that explicit mapping entries are de-duplicated
(first occurrence kept) via a seen-set. -/
def load_directory_pairs (env : Env) : List (Str × Str) :=
  if dedupLoop [] (map_entries env) ≠ [] then dedupLoop [] (map_entries env)
  else if truthy (fallback_remote env) = true ∧ load_source_dirs env ≠ [] then
    (load_source_dirs env).map (fun s => (s, (fallback_remote env).getD []))
  else []

end RemoveLocal

/-! ## Remote-root normalization and remote-path derivation -/

/-- `_normalize_remote_root` (identical in `run.py` and `remove_local.py`):
backslashes become slashes, trailing slashes are stripped, the empty result
becomes `/`, and a leading `/` is forced. -/
def normalize_remote_root (remote_root : Str) : Str :=
  let normalized := pyRstrip '/' (pyReplace '\\' '/' remote_root)
  if normalized = [] then ['/']
  else if normalized.head? = some '/' then normalized
  else '/' :: normalized

/-- The remote-path derivation used by both orchestrator loops:
`f"/{rel}"` when the normalized root is `/`, else `f"{root}/{rel}"`. -/
def derive_remote_path (normalizedRoot rel : Str) : Str :=
  if normalizedRoot = ['/'] then '/' :: rel
  else normalizedRoot ++ '/' :: rel

/-! ## Remote clients (`src/openlist.py`, `src/rclone_client.py`) -/

/-- `_normalize_remote_path` (identical in both client classes): backslashes
become slashes and a leading `/` is forced. -/
def normalize_remote_path (remote_path : Str) : Str :=
  let normalized := pyReplace '\\' '/' remote_path
  if normalized.head? = some '/' then normalized else '/' :: normalized

/-- The nonempty components of a POSIX path (split on `/`). -/
def posixSegments (p : Str) : List Str :=
  (pySplitChar '/' p).filter (· ≠ [])

/-- `PurePosixPath(p).name` for an absolute path: the last component, or the
empty string when the path has none (the root). -/
def posix_name (p : Str) : Str :=
  (posixSegments p).getLast?.getD []

/-- `str(PurePosixPath(p).parent)` for an absolute path, combined with the
scripts' `parent if parent != "." else "/"` adjustment: drop the last
component; `/` when one or no component remains.  Rendered with single
slashes, as `PurePosixPath` does. -/
def posix_parent (p : Str) : Str :=
  match (posixSegments p).dropLast with
  | [] => ['/']
  | segs => segs.flatMap (fun s => '/' :: s)

/-- Error taxonomy of the remote-client operations (the spec's
`FileNotFound`, `UploadFailed`, `InvalidRemotePath`, `RemoteCheckFailed`).
`authFailed` is the `RuntimeError` raised when re-authentication fails. -/
inductive ClientErr where
  | fileNotFound
  | invalidRemotePath
  | uploadFailed
  | authFailed
  | checkFailed
deriving DecidableEq, Repr

/-- External calls made by the Openlist (HTTP-API) client. -/
inductive NetCall where
  | loginCall
  | putCall
  | listCall
deriving DecidableEq, Repr

/-- Outcome of the streamed `PUT /api/fs/put` request, as seen by
`OpenlistClient.upload_file`. -/
inductive PutOutcome where
  | requestError
  | notJson
  | jsonCode (code : Nat)
deriving DecidableEq, Repr

/-- `OpenlistClient.upload_file` (called with its default keyword arguments
`as_task=True, reauthenticate=True`, as the spec describes it): check the
local file, re-authenticate, validate the normalized remote path, then issue
the `PUT`.  Returns the result together with the network calls made. -/
def openlist_upload_file (localIsFile : Bool) (remote_path : Str)
    (authOk : Bool) (put : PutOutcome) : Except ClientErr Unit × List NetCall :=
  if ¬localIsFile then (.error .fileNotFound, [])
  else if ¬authOk then (.error .authFailed, [.loginCall])
  else
    let target := normalize_remote_path remote_path
    if target.getLast? = some '/' then (.error .invalidRemotePath, [.loginCall])
    else
      match put with
      | .requestError => (.error .uploadFailed, [.loginCall, .putCall])
      | .notJson => (.error .uploadFailed, [.loginCall, .putCall])
      | .jsonCode code =>
        if code ≠ 200 then (.error .uploadFailed, [.loginCall, .putCall])
        else (.ok (), [.loginCall, .putCall])

/-- Calls made by the rclone (external-tool) client. -/
inductive ToolCall where
  | copytoCall
  | lsjsonCall
deriving DecidableEq, Repr

/-- `RcloneClient.upload_file`: check the local file, then run
`rclone copyto`; a non-zero exit code becomes `UploadFailed`
(a `RuntimeError`).  Returns the result together with the tool calls made. -/
def rclone_upload_file (localIsFile : Bool) (remote_path : Str)
    (copytoExit : Nat) : Except ClientErr Unit × List ToolCall :=
  if ¬localIsFile then (.error .fileNotFound, [])
  else if copytoExit ≠ 0 then (.error .uploadFailed, [.copytoCall])
  else (.ok (), [.copytoCall])

/-- One entry of a parsed directory listing.  `nonDict` models a JSON array
element that is not an object (skipped by the Openlist scan). -/
inductive ListingEntry where
  | nonDict
  | entry (name : Str) (isDir : Bool)
deriving DecidableEq, Repr

/-- Outcome of listing a remote directory: `failure` covers a transport/tool
error, a non-success status, or a response whose JSON cannot be decoded;
`ok` carries the parsed entries. -/
inductive ListingOutcome where
  | failure
  | ok (entries : List ListingEntry)

/-- The linear scan shared by both `remote_file_exists` implementations:
an entry matches when it is an object, is not a directory, and its name
equals the searched file name exactly. -/
def listing_has_file (entries : List ListingEntry) (name : Str) : Bool :=
  entries.any (fun e =>
    match e with
    | .nonDict => false
    | .entry n d => ¬d && n = name)

/-- `OpenlistClient.remote_file_exists` (default `reauthenticate=True`):
normalize, reject a path with no final component, re-authenticate, list the
parent directory (`listings` maps a directory path to its outcome), and scan
for an exact non-directory name match. -/
def openlist_remote_file_exists (authOk : Bool)
    (listings : Str → ListingOutcome) (remote_path : Str) :
    Except ClientErr Bool :=
  let np := normalize_remote_path remote_path
  if posix_name np = [] then .error .invalidRemotePath
  else if ¬authOk then .error .authFailed
  else
    match listings (posix_parent np) with
    | .failure => .error .checkFailed
    | .ok entries => .ok (listing_has_file entries (posix_name np))

/-- `RcloneClient.remote_file_exists`: normalize, reject a path with no final
component, run `rclone lsjson` on the parent directory, and scan the parsed
entries for an exact non-directory name match. -/
def rclone_remote_file_exists (listings : Str → ListingOutcome)
    (remote_path : Str) : Except ClientErr Bool :=
  let np := normalize_remote_path remote_path
  if posix_name np = [] then .error .invalidRemotePath
  else
    match listings (posix_parent np) with
    | .failure => .error .checkFailed
    | .ok entries => .ok (listing_has_file entries (posix_name np))

/-! ## Local filesystem trees (`src/localfile.py`) -/

/-- File and directory names. -/
abbrev FName := List Char

mutual
/-- A directory: its regular-file names and its subdirectories, in the
order the operating system happens to enumerate them. -/
inductive FsTree where
  | node : List FName → FsForest → FsTree
/-- A list of named subdirectories. -/
inductive FsForest where
  | nil : FsForest
  | cons : FName → FsTree → FsForest → FsForest
end

/-- The ordering used on names (Python sorts strings lexicographically). -/
def fnameLe (a b : FName) : Prop := a ≤ b

instance : DecidableRel fnameLe := fun a b => inferInstanceAs (Decidable (a ≤ b))

instance : IsTotal FName fnameLe := ⟨fun a b => le_total a b⟩

instance : IsTrans FName fnameLe := ⟨fun _ _ _ => le_trans⟩

/-- Ordering of `(name, payload)` pairs by name, as `dirnames.sort()` orders
the descent into subdirectories. -/
def byName {β : Type} (a b : FName × β) : Prop := a.1 ≤ b.1

instance {β : Type} : DecidableRel (byName (β := β)) :=
  fun a b => inferInstanceAs (Decidable (a.1 ≤ b.1))

instance {β : Type} : IsTotal (FName × β) byName := ⟨fun a b => le_total a.1 b.1⟩

instance {β : Type} : IsTrans (FName × β) byName := ⟨fun _ _ _ => le_trans⟩

/-- Rebuild a forest from an association list of subdirectories. -/
def ofList : List (FName × FsTree) → FsForest
  | [] => .nil
  | (n, t) :: rest => .cons n t (ofList rest)

mutual
/-- `iter_files_sorted`, embedded on trees: the result of `os.walk` with
`dirnames.sort()` and `filenames.sort()` at every level — the current
directory's file names in sorted order, then each subdirectory in sorted
name order, recursively.  Paths are returned as component lists relative to
the walked root. -/
def iter_files_sorted : FsTree → List (List FName)
  | .node files subdirs =>
    ((files.insertionSort fnameLe).map (fun f => [f])) ++
      ((walkChildren subdirs).insertionSort byName).flatMap
        (fun x => x.2.map (fun p => x.1 :: p))
/-- The recursive walks of the subdirectories, paired with their names. -/
def walkChildren : FsForest → List (FName × List (List FName))
  | .nil => []
  | .cons n t rest => (n, iter_files_sorted t) :: walkChildren rest
end

mutual
/-- The canonical form of a tree: both sibling lists sorted recursively.
Two enumerations of the same unchanged on-disk tree have the same canonical
form. -/
def canonTree : FsTree → FsTree
  | .node files subdirs =>
    .node (files.insertionSort fnameLe)
      (ofList ((canonPairs subdirs).insertionSort byName))
/-- Canonical forms of the subdirectories, paired with their names. -/
def canonPairs : FsForest → List (FName × FsTree)
  | .nil => []
  | .cons n t rest => (n, canonTree t) :: canonPairs rest
end

/-- Whether a forest is empty (`any(current_path.iterdir())` is false for a
directory with no files exactly when its remaining forest is empty). -/
def FsForest.isNil : FsForest → Bool
  | .nil => true
  | .cons _ _ _ => false

mutual
/-- `remove_empty_directories`'s bottom-up pass over one directory that is
not the preserved root.  `rmdirFails path = true` models a racing `OSError`
from `Path.rmdir()` (silently skipped by the source).  Returns `none` and
the removal count when the directory itself was removed. -/
def pruneTree (rmdirFails : List FName → Bool) (path : List FName) :
    FsTree → Option FsTree × Nat
  | .node files subdirs =>
    let res := pruneForest rmdirFails path subdirs
    if files ≠ [] then (some (.node files res.1), res.2)
    else if ¬res.1.isNil then (some (.node files res.1), res.2)
    else if rmdirFails path then (some (.node files res.1), res.2)
    else (none, res.2 + 1)
/-- The same pass over a list of sibling subdirectories. -/
def pruneForest (rmdirFails : List FName → Bool) (path : List FName) :
    FsForest → FsForest × Nat
  | .nil => (.nil, 0)
  | .cons n t rest =>
    let rt := pruneTree rmdirFails (path ++ [n]) t
    let rr := pruneForest rmdirFails path rest
    match rt.1 with
    | some t2 => (.cons n t2 rr.1, rt.2 + rr.2)
    | none => (rr.1, rt.2 + rr.2)
end

/-- `remove_empty_directories(root, preserve_root=...)`: the bottom-up
`os.walk(topdown=False)` pass.  With `preserve_root = true` the root itself
is always kept (the `current_path == base_path` guard). -/
def remove_empty_directories (preserveRoot : Bool)
    (rmdirFails : List FName → Bool) (t : FsTree) : Option FsTree × Nat :=
  if preserveRoot then
    match t with
    | .node files subdirs =>
      let res := pruneForest rmdirFails [] subdirs
      (some (.node files res.1), res.2)
  else pruneTree rmdirFails [] t

mutual
/-- The total number of directories in a tree (the root included). -/
def dirCount : FsTree → Nat
  | .node _ subdirs => 1 + forestDirCount subdirs
/-- The total number of directories in a forest. -/
def forestDirCount : FsForest → Nat
  | .nil => 0
  | .cons _ t rest => dirCount t + forestDirCount rest
end

mutual
/-- Whether the subtree rooted here contains any regular file at all. -/
def hasFileSomewhere : FsTree → Bool
  | .node files subdirs => files ≠ [] || forestHasFile subdirs
/-- Whether any tree of the forest contains a file. -/
def forestHasFile : FsForest → Bool
  | .nil => false
  | .cons _ t rest => hasFileSomewhere t || forestHasFile rest
end

/-- Find the first subdirectory of a forest with the given name
(directory names are unique in a real filesystem). -/
def findForest (n : FName) : FsForest → Option FsTree
  | .nil => none
  | .cons m t rest => if m = n then some t else findForest n rest

/-- Follow a component path down a tree. -/
def lookupDir : List FName → FsTree → Option FsTree
  | [], t => some t
  | n :: rest, .node _ subdirs =>
    match findForest n subdirs with
    | none => none
    | some t => lookupDir rest t

/-- The file names directly inside a directory. -/
def filesOf : FsTree → List FName
  | .node files _ => files

/-! ## Upload orchestrator (`run.py`) -/

/-- The world of one file in an upload run: the outcomes of
`relative_posix` (raises `FileNotFoundError` when false), of
`client.upload_file` (raises `RuntimeError` when false) and of
`remove_file` (raises `FileNotFoundError`/`IsADirectoryError` when false). -/
structure UploadFileW where
  name : Str
  relOk : Bool
  uploadOk : Bool
  removeOk : Bool
deriving DecidableEq, Repr

/-- The world of one `(local, remote)` pair in an upload run:
whether `ensure_directory` succeeds, and the files walked in order. -/
structure UploadPairW where
  dirOk : Bool
  files : List UploadFileW
deriving DecidableEq, Repr

/-- Observable events of an upload run. -/
inductive UEvent where
  | pairSkipped
  | uploadStarted (name : Str)
  | uploadDone (name : Str)
  | localDeleted (name : Str)
  | deleteFailed (name : Str)
  | prunedEmptyDirs
deriving DecidableEq, Repr

/-- Prepend already-emitted upload events to the rest of a run
(whether or not that rest later aborts). -/
def uPrepend (fx : List UEvent) (r : Except (List UEvent) (List UEvent)) :
    Except (List UEvent) (List UEvent) :=
  match r with
  | .error e => .error (fx ++ e)
  | .ok e => .ok (fx ++ e)

/-- The per-file loop of `_run_upload`.  `Except.error` carries the events
emitted before an exception (`FileNotFoundError` from `relative_posix`, or
`RuntimeError` from `upload_file`) escaped the loop — the source has no
per-file handler, so the exception unwinds to the top-level handler. -/
def uploadFilesLoop : List UploadFileW → Except (List UEvent) (List UEvent)
  | [] => .ok []
  | f :: rest =>
    if ¬f.relOk then .error []
    else if ¬f.uploadOk then .error [.uploadStarted f.name]
    else
      uPrepend ([UEvent.uploadStarted f.name, UEvent.uploadDone f.name] ++
          (if f.removeOk then [UEvent.localDeleted f.name]
           else [UEvent.deleteFailed f.name]))
        (uploadFilesLoop rest)

/-- The per-pair loop of `_run_upload`: a failed `ensure_directory` skips the
pair and continues; an escaped per-file exception aborts the remaining
files, the prune pass and all later pairs. -/
def uploadPairsLoop : List UploadPairW → Except (List UEvent) (List UEvent)
  | [] => .ok []
  | p :: rest =>
    if ¬p.dirOk then uPrepend [.pairSkipped] (uploadPairsLoop rest)
    else
      match uploadFilesLoop p.files with
      | .error e => .error e
      | .ok e =>
        uPrepend (e ++ [UEvent.prunedEmptyDirs]) (uploadPairsLoop rest)

/-- `_run_upload` with its top-level handlers: a `ValueError` from client
construction is caught and merely printed (normal return, so exit status 0);
`FileNotFoundError`/`NotADirectoryError`/`RuntimeError` reaching the top
triggers `sys.exit(1)`.  Returns the events and the process exit status. -/
def run_upload (clientOk : Bool) (pairs : List UploadPairW) :
    List UEvent × Nat :=
  if ¬clientOk then ([], 0)
  else if pairs = [] then ([], 0)
  else
    match uploadPairsLoop pairs with
    | .error e => (e, 1)
    | .ok e => (e, 0)

/-- Filesystem modifications performed by `run.py`'s `main` before and
during lock acquisition, in program order. -/
inductive MainFx where
  | mkdirLogsDir
  | truncateRunLog
  | touchErrorLog
  | openTruncateLockFile
  | writeLockPid
deriving DecidableEq, Repr

/-- `run.py`'s `main`: it creates the log directory, truncates `run.log`,
touches `error.log` and opens (truncating) `run.lock` before attempting the
non-blocking `flock`; if the lock is already held it prints and exits with
status 1, otherwise it writes the pid and runs `_run_upload`. -/
def run_main (lockHeld clientOk : Bool) (pairs : List UploadPairW) :
    List MainFx × List UEvent × Nat :=
  let fx := [MainFx.mkdirLogsDir, MainFx.truncateRunLog, MainFx.touchErrorLog,
    MainFx.openTruncateLockFile]
  if lockHeld then (fx, [], 1)
  else
    let r := run_upload clientOk pairs
    (fx ++ [MainFx.writeLockPid], r.1, r.2)

/-! ## Verify-and-delete orchestrator (`remove_local.py`) -/

instance {ε α : Type} [DecidableEq ε] [DecidableEq α] :
    DecidableEq (Except ε α) := fun x y =>
  match x, y with
  | .error a, .error b =>
    if h : a = b then .isTrue (by rw [h]) else .isFalse (by simp [h])
  | .error _, .ok _ => .isFalse (by simp)
  | .ok _, .error _ => .isFalse (by simp)
  | .ok a, .ok b =>
    if h : a = b then .isTrue (by rw [h]) else .isFalse (by simp [h])

/-- The world of one file in a verify-and-delete run: the outcome of
`relative_posix`, of `remote_file_exists` (`Except.error ()` models a
`RuntimeError`, the spec's `RemoteCheckFailed`) and of `remove_file`. -/
structure VerifyFileW where
  name : Str
  relOk : Bool
  check : Except Unit Bool
  removeOk : Bool
deriving DecidableEq, Repr

/-- The world of one pair in a verify-and-delete run. -/
structure VerifyPairW where
  dirOk : Bool
  files : List VerifyFileW
deriving DecidableEq, Repr

/-- Observable events of a verify-and-delete run. -/
inductive VEvent where
  | pairSkipped
  | checkFailedKept (name : Str)
  | keptAbsent (name : Str)
  | deletedLocal (name : Str)
  | deleteFailed (name : Str)
  | prunedEmptyDirs
deriving DecidableEq, Repr

/-- Events plus the `processed`/`removed` counter increments contributed by
one file of `remove_local.py`'s inner loop. -/
def verifyFileStep (f : VerifyFileW) : List VEvent × Nat × Nat :=
  match f.check with
  | .error () => ([.checkFailedKept f.name], 1, 0)
  | .ok false => ([.keptAbsent f.name], 1, 0)
  | .ok true =>
    if f.removeOk then ([.deletedLocal f.name], 1, 1)
    else ([.deleteFailed f.name], 1, 0)

/-- Prepend one file's contribution to the rest of a run
(whether or not that rest later aborts). -/
def vPrepend (s : List VEvent × Nat × Nat)
    (r : Except (List VEvent × Nat × Nat) (List VEvent × Nat × Nat)) :
    Except (List VEvent × Nat × Nat) (List VEvent × Nat × Nat) :=
  match r with
  | .error (e, p, rm) => .error (s.1 ++ e, s.2.1 + p, s.2.2 + rm)
  | .ok (e, p, rm) => .ok (s.1 ++ e, s.2.1 + p, s.2.2 + rm)

/-- The per-file loop of `remove_local.py`'s `main`.  A failed
`relative_posix` (`Except.error`) is uncaught and aborts the whole script;
every other per-file failure is caught, logged and skipped. -/
def verifyFilesLoop : List VerifyFileW →
    Except (List VEvent × Nat × Nat) (List VEvent × Nat × Nat)
  | [] => .ok ([], 0, 0)
  | f :: rest =>
    if ¬f.relOk then .error ([], 0, 0)
    else vPrepend (verifyFileStep f) (verifyFilesLoop rest)

/-- The per-pair loop of `remove_local.py`'s `main`: a failed
`ensure_directory` skips the pair; after a pair's files, empty directories
are pruned. -/
def verifyPairsLoop : List VerifyPairW →
    Except (List VEvent × Nat × Nat) (List VEvent × Nat × Nat)
  | [] => .ok ([], 0, 0)
  | p :: rest =>
    if ¬p.dirOk then vPrepend ([.pairSkipped], 0, 0) (verifyPairsLoop rest)
    else
      match verifyFilesLoop p.files with
      | .error s => .error s
      | .ok s =>
        vPrepend (s.1 ++ [VEvent.prunedEmptyDirs], s.2.1, s.2.2)
          (verifyPairsLoop rest)

/-- The final outcome of a `remove_local.py` run. -/
structure VerifyOutcome where
  events : List VEvent
  processed : Nat
  removed : Nat
  exitCode : Nat
deriving DecidableEq, Repr

/-- `remove_local.py`'s `main`: returns 1 when no directory pair resolved or
when client construction fails; per-file failures are caught and the run
returns 0; an uncaught exception (failed `relative_posix`) terminates the
interpreter with exit status 1. -/
def remove_local_main (clientOk : Bool) (pairs : List VerifyPairW) :
    VerifyOutcome :=
  if pairs = [] then ⟨[], 0, 0, 1⟩
  else if ¬clientOk then ⟨[], 0, 0, 1⟩
  else
    match verifyPairsLoop pairs with
    | .error (e, p, rm) => ⟨e, p, rm, 1⟩
    | .ok (e, p, rm) => ⟨e, p, rm, 0⟩

/-- `RcloneClient.__init__` succeeds unless `RCLONE_REMOTE` is set to a
whitespace-only value (the default `"123"` applies when it is unset);
an empty stripped remote raises `ValueError`. -/
def rclone_client_ok (env : Env) : Bool :=
  match env.RCLONE_REMOTE with
  | none => true
  | some s => pyStrip s ≠ []

/-- `dirCount` lifted to the optional result of a prune. -/
def optDirCount : Option FsTree → Nat
  | none => 0
  | some t => dirCount t

/-! # Theorems -/

/-! ## Helper lemmas: strings -/

theorem pyRstrip_getLast (c : Char) (s : Str) :
    pyRstrip c s = [] ∨ (pyRstrip c s).getLast? ≠ some c := by
  unfold pyRstrip
  cases hd : s.reverse.dropWhile (· = c) with
  | nil => exact Or.inl rfl
  | cons x xs =>
    right
    have hx := List.head?_dropWhile_not (· = c) s.reverse
    rw [hd] at hx
    simp only [List.head?_cons] at hx
    rw [List.getLast?_reverse, List.head?_cons]
    intro h
    rw [show x = c from Option.some.inj h] at hx
    simp at hx

theorem mem_pyRstrip {c x : Char} {s : Str} (h : x ∈ pyRstrip c s) : x ∈ s := by
  unfold pyRstrip at h
  rw [List.mem_reverse] at h
  have := (List.dropWhile_sublist (l := s.reverse) (p := (· = c))).mem h
  rwa [List.mem_reverse] at this

theorem backslash_not_mem_pyReplace (s : Str) : '\\' ∉ pyReplace '\\' '/' s := by
  unfold pyReplace
  intro h
  rw [List.mem_map] at h
  obtain ⟨a, _, ha⟩ := h
  by_cases hb : a = '\\' <;> simp [hb] at ha

/-! ## Helper lemmas: first-occurrence de-duplication -/

theorem dedupLoop_nil_iff {α : Type} [DecidableEq α] (l : List α) :
    dedupLoop [] l = [] ↔ l = [] := by
  cases l with
  | nil => simp [dedupLoop]
  | cons x xs => simp [dedupLoop]

theorem mem_dedupLoop {α : Type} [DecidableEq α] :
    ∀ (l seen : List α) (x : α), x ∈ dedupLoop seen l → x ∈ l ∧ x ∉ seen := by
  intro l
  induction l with
  | nil => intro seen x h; simp [dedupLoop] at h
  | cons a xs ih =>
    intro seen x h
    unfold dedupLoop at h
    by_cases ha : a ∈ seen
    · rw [if_pos ha] at h
      have := ih seen x h
      exact ⟨List.mem_cons_of_mem _ this.1, this.2⟩
    · rw [if_neg ha] at h
      rcases List.mem_cons.1 h with h1 | h2
      · exact ⟨by simp [h1], by rw [h1]; exact ha⟩
      · have := ih (a :: seen) x h2
        refine ⟨List.mem_cons_of_mem _ this.1, fun hx => this.2 ?_⟩
        exact List.mem_cons_of_mem _ hx

theorem dedupLoop_nodup {α : Type} [DecidableEq α] :
    ∀ (l seen : List α), (dedupLoop seen l).Nodup := by
  intro l
  induction l with
  | nil => intro seen; simp [dedupLoop]
  | cons a xs ih =>
    intro seen
    unfold dedupLoop
    by_cases ha : a ∈ seen
    · rw [if_pos ha]; exact ih seen
    · rw [if_neg ha]
      refine List.nodup_cons.2 ⟨fun hmem => ?_, ih (a :: seen)⟩
      exact (mem_dedupLoop xs (a :: seen) a hmem).2 (List.mem_cons_self a seen)

theorem dedupLoop_eq_self {α : Type} [DecidableEq α] :
    ∀ (l seen : List α), l.Nodup → (∀ x ∈ l, x ∉ seen) →
      dedupLoop seen l = l := by
  intro l
  induction l with
  | nil => intro seen _ _; rfl
  | cons a xs ih =>
    intro seen hnd hdisj
    unfold dedupLoop
    rw [if_neg (hdisj a (List.mem_cons_self a xs))]
    congr 1
    refine ih (a :: seen) (List.nodup_cons.1 hnd).2 ?_
    intro x hx
    rw [List.mem_cons]
    push_neg
    refine ⟨fun hxa => (List.nodup_cons.1 hnd).1 (hxa ▸ hx), ?_⟩
    exact hdisj x (List.mem_cons_of_mem _ hx)

/-! ## Claim C9: remote-root normalization and remote-path derivation -/

/-- C9: every configured remote root normalizes to an absolute forward-slash
path with no trailing slash (root case `/`), and the derived remote path is
the normalized root, `/`, and the file's relative POSIX path (just `/` and
the relative path when the root is `/`). -/
theorem claim_C9 (remote_root rel : Str) :
    (normalize_remote_root remote_root).head? = some '/' ∧
    (normalize_remote_root remote_root = ['/'] ∨
      (normalize_remote_root remote_root).getLast? ≠ some '/') ∧
    '\\' ∉ normalize_remote_root remote_root ∧
    derive_remote_path (normalize_remote_root remote_root) rel =
      (if normalize_remote_root remote_root = ['/'] then '/' :: rel
       else normalize_remote_root remote_root ++ '/' :: rel) := by
  refine ⟨?_, ?_, ?_, rfl⟩
  · unfold normalize_remote_root
    by_cases h : pyRstrip '/' (pyReplace '\\' '/' remote_root) = []
    · simp [h]
    · rw [if_neg h]
      by_cases h2 :
          (pyRstrip '/' (pyReplace '\\' '/' remote_root)).head? = some '/'
      · rw [if_pos h2]; exact h2
      · rw [if_neg h2]; rfl
  · unfold normalize_remote_root
    by_cases hne : pyRstrip '/' (pyReplace '\\' '/' remote_root) = []
    · simp [hne]
    · have h : (pyRstrip '/' (pyReplace '\\' '/' remote_root)).getLast? ≠
          some '/' :=
        (pyRstrip_getLast '/' (pyReplace '\\' '/' remote_root)).resolve_left hne
      rw [if_neg hne]
      by_cases h2 :
          (pyRstrip '/' (pyReplace '\\' '/' remote_root)).head? = some '/'
      · rw [if_pos h2]; exact Or.inr h
      · rw [if_neg h2]
        right
        cases hc : pyRstrip '/' (pyReplace '\\' '/' remote_root) with
        | nil => exact absurd hc hne
        | cons x xs =>
          rw [List.getLast?_cons_cons]
          rw [hc] at h
          exact h
  · unfold normalize_remote_root
    by_cases h : pyRstrip '/' (pyReplace '\\' '/' remote_root) = []
    · simp [h]
    · rw [if_neg h]
      have hmem : '\\' ∉ pyRstrip '/' (pyReplace '\\' '/' remote_root) :=
        fun hm => backslash_not_mem_pyReplace remote_root (mem_pyRstrip hm)
      by_cases h2 :
          (pyRstrip '/' (pyReplace '\\' '/' remote_root)).head? = some '/'
      · rw [if_pos h2]; exact hmem
      · rw [if_neg h2]
        intro hm
        rcases List.mem_cons.1 hm with h3 | h3
        · exact absurd h3 (by decide)
        · exact hmem h3

/-! ## Claim C10: the two copies of `load_directory_pairs` -/

/-- C10 counterexample: with `LOCAL_REMOTE_MAPS = "a=>b;a=>b"` the upload
script keeps the duplicated pair while the verify-and-delete script
de-duplicates it, so the two copies disagree. -/
theorem claim_C10_counterexample :
    Run.load_directory_pairs
        { LOCAL_REMOTE_MAPS := some ['a','=','>','b',';','a','=','>','b'] } =
      [(['a'], ['b']), (['a'], ['b'])] ∧
    RemoveLocal.load_directory_pairs
        { LOCAL_REMOTE_MAPS := some ['a','=','>','b',';','a','=','>','b'] } =
      [(['a'], ['b'])] ∧
    Run.load_directory_pairs
        { LOCAL_REMOTE_MAPS := some ['a','=','>','b',';','a','=','>','b'] } ≠
      RemoveLocal.load_directory_pairs
        { LOCAL_REMOTE_MAPS := some ['a','=','>','b',';','a','=','>','b'] } := by
  refine ⟨?_, ?_, ?_⟩ <;> decide

/-- C10 (amended): for every environment, the verify-and-delete copy of
`load_directory_pairs` equals the upload copy with duplicate
`(local, remote)` pairs removed, first occurrence kept; in particular the
copies agree exactly when the upload copy's explicit mapping entries are
already duplicate-free. -/
theorem claim_C10 (env : Env) :
    RemoveLocal.load_directory_pairs env =
      dedupLoop [] (Run.load_directory_pairs env) := by
  unfold RemoveLocal.load_directory_pairs Run.load_directory_pairs
  by_cases h : map_entries env = []
  · have hd : dedupLoop [] (map_entries env) = [] := by
      rw [dedupLoop_nil_iff]; exact h
    have hneg1 : ¬dedupLoop [] (map_entries env) ≠ [] := fun hc => hc hd
    have hneg2 : ¬map_entries env ≠ [] := fun hc => hc h
    rw [if_neg hneg1, if_neg hneg2]
    by_cases h2 : truthy (fallback_remote env) = true ∧ load_source_dirs env ≠ []
    · rw [if_pos h2]
      refine (dedupLoop_eq_self _ [] ?_ (by simp)).symm
      refine List.Nodup.map ?_ ?_
      · intro a b hab
        exact congrArg Prod.fst hab
      · unfold load_source_dirs
        exact dedupLoop_nodup _ []
    · rw [if_neg h2]; rfl
  · have hd : dedupLoop [] (map_entries env) ≠ [] := by
      rw [Ne, dedupLoop_nil_iff]; exact h
    rw [if_pos hd, if_pos h]

/-! ## Claim C4: `upload_file` precondition checks -/

/-- C4 counterexample: `RcloneClient.upload_file` performs no
trailing-separator check at all — with an existing local file and the remote
path `/a/` (which ends in a path separator) it does not fail with
`InvalidRemotePath`; it invokes the tool and, on exit code 0, succeeds. -/
theorem claim_C4_counterexample :
    (rclone_upload_file true ['/', 'a', '/'] 0).1 ≠
        Except.error ClientErr.invalidRemotePath ∧
    rclone_upload_file true ['/', 'a', '/'] 0 =
      (Except.ok (), [ToolCall.copytoCall]) := by
  refine ⟨?_, ?_⟩ <;> decide

/-- C4 (amended): both variants fail with `FileNotFound`, before any
network/tool call, when the local path is not an existing regular file.  The
HTTP-API variant rejects a remote path that ends in a separator (after
normalization) with `InvalidRemotePath` before the upload request — but only
after the re-authentication network call.  The rclone variant performs no
trailing-separator check: whenever the local file exists it invokes the
tool exactly once and never fails with `InvalidRemotePath`. -/
theorem claim_C4 :
    (∀ (rp : Str) (authOk : Bool) (put : PutOutcome),
      openlist_upload_file false rp authOk put =
        (.error .fileNotFound, [])) ∧
    (∀ (rp : Str) (ec : Nat),
      rclone_upload_file false rp ec = (.error .fileNotFound, [])) ∧
    (∀ (rp : Str) (put : PutOutcome),
      (normalize_remote_path rp).getLast? = some '/' →
      openlist_upload_file true rp true put =
        (.error .invalidRemotePath, [.loginCall])) ∧
    (∀ (rp : Str) (ec : Nat),
      (rclone_upload_file true rp ec).1 ≠ .error .invalidRemotePath ∧
      (rclone_upload_file true rp ec).2 = [.copytoCall]) := by
  refine ⟨?_, ?_, ?_, ?_⟩
  · intro rp authOk put
    simp [openlist_upload_file]
  · intro rp ec
    simp [rclone_upload_file]
  · intro rp put h
    simp [openlist_upload_file, h]
  · intro rp ec
    by_cases h : ec = 0 <;> simp [rclone_upload_file, h]

/-- C4 witness: the trailing-slash rejection clause of `claim_C4` applied to
the concrete remote path `a/` (whose normalization `/a/` ends in `/`). -/
theorem claim_C4_witness :
    (normalize_remote_path ['a', '/']).getLast? = some '/' ∧
    openlist_upload_file true ['a', '/'] true (.jsonCode 200) =
      (.error .invalidRemotePath, [.loginCall]) :=
  ⟨by decide, claim_C4.2.2.1 ['a', '/'] (.jsonCode 200) (by decide)⟩

/-! ## Claim C6: `remote_file_exists` semantics -/

/-- The scan returns true exactly when some object entry has the searched
name and is not a directory. -/
theorem listing_has_file_iff (entries : List ListingEntry) (name : Str) :
    listing_has_file entries name = true ↔
      ListingEntry.entry name false ∈ entries := by
  unfold listing_has_file
  rw [List.any_eq_true]
  constructor
  · rintro ⟨e, he, hmatch⟩
    cases e with
    | nonDict => simp at hmatch
    | entry n d =>
      cases d with
      | true => simp at hmatch
      | false =>
        have hn : n = name := by simpa using hmatch
        rwa [hn] at he
  · intro h
    exact ⟨ListingEntry.entry name false, h, by simp⟩

/-- C6: for both client variants, `remote_file_exists` on a remote path with
a final component returns true iff the parent-directory listing succeeded
and contains a non-directory entry named exactly like that final component;
it returns false iff the listing succeeded without such an entry; and when
the listing cannot be completed (tool/transport error, non-success status,
undecodable response — and, for the HTTP variant, a failed
re-authentication) it raises instead of returning false. -/
theorem claim_C6 (listings : Str → ListingOutcome) (rp : Str)
    (hname : posix_name (normalize_remote_path rp) ≠ []) :
    (∀ entries,
      listings (posix_parent (normalize_remote_path rp)) = .ok entries →
      (rclone_remote_file_exists listings rp = .ok true ↔
        ListingEntry.entry (posix_name (normalize_remote_path rp)) false ∈
          entries) ∧
      (openlist_remote_file_exists true listings rp = .ok true ↔
        ListingEntry.entry (posix_name (normalize_remote_path rp)) false ∈
          entries) ∧
      (rclone_remote_file_exists listings rp = .ok false ↔
        ListingEntry.entry (posix_name (normalize_remote_path rp)) false ∉
          entries) ∧
      (openlist_remote_file_exists true listings rp = .ok false ↔
        ListingEntry.entry (posix_name (normalize_remote_path rp)) false ∉
          entries)) ∧
    (listings (posix_parent (normalize_remote_path rp)) = .failure →
      rclone_remote_file_exists listings rp = .error .checkFailed ∧
      openlist_remote_file_exists true listings rp = .error .checkFailed) ∧
    (openlist_remote_file_exists false listings rp =
      .error .authFailed) := by
  refine ⟨?_, ?_, ?_⟩
  · intro entries hok
    have hr : rclone_remote_file_exists listings rp =
        .ok (listing_has_file entries
          (posix_name (normalize_remote_path rp))) := by
      unfold rclone_remote_file_exists
      rw [if_neg hname, hok]
    have ho : openlist_remote_file_exists true listings rp =
        .ok (listing_has_file entries
          (posix_name (normalize_remote_path rp))) := by
      unfold openlist_remote_file_exists
      rw [if_neg hname]
      simp only [not_true_eq_false, if_false, hok]
    rw [hr, ho]
    have hiff := listing_has_file_iff entries
      (posix_name (normalize_remote_path rp))
    constructor
    · rw [← hiff]
      constructor
      · intro h; exact (by simpa using h)
      · intro h; simp [h]
    constructor
    · rw [← hiff]
      constructor
      · intro h; exact (by simpa using h)
      · intro h; simp [h]
    constructor
    · rw [← hiff]
      constructor
      · intro h
        have : listing_has_file entries
            (posix_name (normalize_remote_path rp)) = false := by simpa using h
        simp [this]
      · intro h
        have : listing_has_file entries
            (posix_name (normalize_remote_path rp)) = false := by
          simpa using h
        simp [this]
    · rw [← hiff]
      constructor
      · intro h
        have : listing_has_file entries
            (posix_name (normalize_remote_path rp)) = false := by simpa using h
        simp [this]
      · intro h
        have : listing_has_file entries
            (posix_name (normalize_remote_path rp)) = false := by
          simpa using h
        simp [this]
  · intro hfail
    constructor
    · unfold rclone_remote_file_exists
      rw [if_neg hname, hfail]
    · unfold openlist_remote_file_exists
      rw [if_neg hname]
      simp only [not_true_eq_false, if_false, hfail]
  · unfold openlist_remote_file_exists
    rw [if_neg hname]
    simp

/-- C6 witness: `claim_C6` applied to the remote path `/a/x` against a world
whose listing of `/a` succeeds and contains the file `x`; both variants
report the file as present. -/
theorem claim_C6_witness :
    posix_name (normalize_remote_path ['/', 'a', '/', 'x']) ≠ [] ∧
    rclone_remote_file_exists
        (fun _ => .ok [ListingEntry.entry ['x'] false]) ['/', 'a', '/', 'x'] =
      .ok true := by
  have h := claim_C6 (fun _ => .ok [ListingEntry.entry ['x'] false])
    ['/', 'a', '/', 'x'] (by decide)
  refine ⟨by decide, ?_⟩
  exact ((h.1 [ListingEntry.entry ['x'] false] rfl).1).2 (by decide)

/-! ## Claim C5: verify-and-delete per-file behaviour -/

/-- C5: in verify-and-delete mode, a file whose existence check raises is
kept (`checkFailedKept`), with the processed count incremented and the
removed count unchanged, and the traversal continues; a file whose check
returns false is kept; a file whose check returns true is deleted and the
removed count incremented; a deletion failure is logged (`deleteFailed`)
without aborting the remaining traversal. -/
theorem claim_C5 (f : VerifyFileW) (rest : List VerifyFileW)
    (hrel : f.relOk = true) :
    (f.check = .error () →
      verifyFilesLoop (f :: rest) =
        vPrepend ([.checkFailedKept f.name], 1, 0) (verifyFilesLoop rest)) ∧
    (f.check = .ok false →
      verifyFilesLoop (f :: rest) =
        vPrepend ([.keptAbsent f.name], 1, 0) (verifyFilesLoop rest)) ∧
    (f.check = .ok true → f.removeOk = true →
      verifyFilesLoop (f :: rest) =
        vPrepend ([.deletedLocal f.name], 1, 1) (verifyFilesLoop rest)) ∧
    (f.check = .ok true → f.removeOk = false →
      verifyFilesLoop (f :: rest) =
        vPrepend ([.deleteFailed f.name], 1, 0) (verifyFilesLoop rest)) := by
  refine ⟨?_, ?_, ?_, ?_⟩
  · intro h
    simp [verifyFilesLoop, hrel, verifyFileStep, h]
  · intro h
    simp [verifyFilesLoop, hrel, verifyFileStep, h]
  · intro h hr
    simp [verifyFilesLoop, hrel, verifyFileStep, h, hr]
  · intro h hr
    simp [verifyFilesLoop, hrel, verifyFileStep, h, hr]

/-- C5 witness: `claim_C5` applied to a concrete file whose remote check
raises — the file's contribution is `checkFailedKept` with counts `(1, 0)`
and the loop continues with the (empty) remainder. -/
theorem claim_C5_witness :
    verifyFilesLoop [⟨['a'], true, Except.error (), true⟩] =
      vPrepend ([.checkFailedKept ['a']], 1, 0) (verifyFilesLoop []) :=
  (claim_C5 ⟨['a'], true, Except.error (), true⟩ [] rfl).1 rfl

/-! ## Claim C1: upload-mode failure handling -/

/-- C1 counterexample: in upload mode a single failed upload (file `a`)
aborts the entire run with exit status 1 — the following file `b` of the
same directory and the whole second directory pair (file `c`) are never
attempted, contradicting the claim that processing continues. -/
theorem claim_C1_counterexample :
    run_upload true
        [⟨true, [⟨['a'], true, false, true⟩, ⟨['b'], true, true, true⟩]⟩,
          ⟨true, [⟨['c'], true, true, true⟩]⟩] =
      ([UEvent.uploadStarted ['a']], 1) ∧
    UEvent.uploadStarted ['b'] ∉
      (run_upload true
        [⟨true, [⟨['a'], true, false, true⟩, ⟨['b'], true, true, true⟩]⟩,
          ⟨true, [⟨['c'], true, true, true⟩]⟩]).1 ∧
    UEvent.uploadStarted ['c'] ∉
      (run_upload true
        [⟨true, [⟨['a'], true, false, true⟩, ⟨['b'], true, true, true⟩]⟩,
          ⟨true, [⟨['c'], true, true, true⟩]⟩]).1 := by
  refine ⟨?_, ?_, ?_⟩ <;> decide

/-- C1 (amended): in upload mode, a directory whose existence check fails is
skipped and processing continues with the remaining pairs, and a failed
local deletion after a successful upload is logged and processing continues;
but a single-file upload failure (`RuntimeError`) or relative-path failure
(`FileNotFound`) escapes the per-file loop, aborting the remaining files,
the prune pass and all later pairs, and the run exits with status 1.  A
Remote Client construction failure ends the run before any traversal —
with exit status 0, because the `ValueError` is caught and only printed. -/
theorem claim_C1 :
    (∀ pairs, run_upload false pairs = ([], 0)) ∧
    (∀ (p : UploadPairW) rest, p.dirOk = false →
      uploadPairsLoop (p :: rest) =
        uPrepend [.pairSkipped] (uploadPairsLoop rest)) ∧
    (∀ (f : UploadFileW) rest, f.relOk = true → f.uploadOk = false →
      uploadFilesLoop (f :: rest) = .error [.uploadStarted f.name]) ∧
    (∀ (f : UploadFileW) rest, f.relOk = false →
      uploadFilesLoop (f :: rest) = .error []) ∧
    (∀ (f : UploadFileW) rest, f.relOk = true → f.uploadOk = true →
      f.removeOk = false →
      uploadFilesLoop (f :: rest) =
        uPrepend [.uploadStarted f.name, .uploadDone f.name,
          .deleteFailed f.name] (uploadFilesLoop rest)) ∧
    (∀ (p : UploadPairW) rest e, p.dirOk = true →
      uploadFilesLoop p.files = .error e →
      uploadPairsLoop (p :: rest) = .error e) ∧
    (∀ pairs e, pairs ≠ [] → uploadPairsLoop pairs = .error e →
      run_upload true pairs = (e, 1)) := by
  refine ⟨?_, ?_, ?_, ?_, ?_, ?_, ?_⟩
  · intro pairs
    simp [run_upload]
  · intro p rest h
    simp only [uploadPairsLoop]
    rw [if_pos (by simp [h])]
  · intro f rest h hu
    simp only [uploadFilesLoop]
    rw [if_neg (by simp [h]), if_pos (by simp [hu])]
  · intro f rest h
    simp only [uploadFilesLoop]
    rw [if_pos (by simp [h])]
  · intro f rest h hu hr
    simp only [uploadFilesLoop]
    rw [if_neg (by simp [h]), if_neg (by simp [hu])]
    simp [hr]
  · intro p rest e h he
    simp only [uploadPairsLoop]
    rw [if_neg (by simp [h]), he]
  · intro pairs e hne he
    unfold run_upload
    rw [if_neg (by simp), if_neg hne, he]

/-- C1 witness: the abort and skip clauses of `claim_C1` at concrete
worlds — a failed upload of `a` aborts even with another file pending,
and a client-construction failure yields an empty run with exit 0. -/
theorem claim_C1_witness :
    uploadFilesLoop [⟨['a'], true, false, true⟩, ⟨['b'], true, true, true⟩] =
      .error [.uploadStarted ['a']] ∧
    run_upload false [⟨true, [⟨['a'], true, true, true⟩]⟩] = ([], 0) :=
  ⟨claim_C1.2.2.1 ⟨['a'], true, false, true⟩ [⟨['b'], true, true, true⟩]
      rfl rfl,
    claim_C1.1 [⟨true, [⟨['a'], true, true, true⟩]⟩]⟩

/-! ## Claim C2: behaviour when the lock is already held -/

/-- C2 counterexample: when another instance holds the lock the new process
does exit with status 1 and performs no traversal, but before exiting it
has already truncated `logs/run.log` and opened `run.lock` with mode `w`
(truncating it) — file modifications, contradicting "no file modification
whatsoever". -/
theorem claim_C2_counterexample :
    MainFx.truncateRunLog ∈ (run_main true true []).1 ∧
    MainFx.openTruncateLockFile ∈ (run_main true true []).1 ∧
    (run_main true true []).2.2 = 1 := by
  refine ⟨?_, ?_, ?_⟩ <;> decide

/-- C2 (amended): when another process holds the lock, the new process exits
with status 1 without starting any traversal (no upload events), but only
after creating the log directory, truncating the run log, touching the
error log and opening (truncating) the lock file. -/
theorem claim_C2 (clientOk : Bool) (pairs : List UploadPairW) :
    run_main true clientOk pairs =
      ([MainFx.mkdirLogsDir, MainFx.truncateRunLog, MainFx.touchErrorLog,
        MainFx.openTruncateLockFile], [], 1) := rfl

/-! ## Claim C3: process exit statuses -/

/-- C3 counterexample: `RCLONE_REMOTE` set to a blank string makes client
construction fail, yet the upload script exits with status 0 — the
`ValueError` is caught and only printed — contradicting "non-zero exactly
when client construction/configuration fails". -/
theorem claim_C3_counterexample :
    rclone_client_ok { RCLONE_REMOTE := some [' '] } = false ∧
    (run_main false false []).2.2 = 0 := by
  refine ⟨?_, ?_⟩ <;> decide

/-- Every file of every pair computes its relative path successfully. -/
def vNoCrash (pairs : List VerifyPairW) : Prop :=
  ∀ p ∈ pairs, ∀ f ∈ p.files, f.relOk = true

/-- Every file of every pair computes its relative path and uploads
successfully. -/
def uAllOk (pairs : List UploadPairW) : Prop :=
  ∀ p ∈ pairs, ∀ f ∈ p.files, f.relOk = true ∧ f.uploadOk = true

theorem verifyFilesLoop_noCrash (files : List VerifyFileW)
    (h : ∀ f ∈ files, f.relOk = true) :
    ∀ s, verifyFilesLoop files ≠ .error s := by
  induction files with
  | nil => intro s hs; exact absurd hs (by simp [verifyFilesLoop])
  | cons f rest ih =>
    intro s hs
    rw [verifyFilesLoop, if_neg (by simp [h f (List.mem_cons_self f rest)])]
      at hs
    cases hrest : verifyFilesLoop rest with
    | error t => exact ih (fun g hg => h g (List.mem_cons_of_mem _ hg)) t hrest
    | ok t => rw [hrest] at hs; exact absurd hs (by simp [vPrepend])

theorem verifyPairsLoop_noCrash (pairs : List VerifyPairW)
    (h : vNoCrash pairs) : ∀ s, verifyPairsLoop pairs ≠ .error s := by
  induction pairs with
  | nil => intro s hs; exact absurd hs (by simp [verifyPairsLoop])
  | cons p rest ih =>
    intro s hs
    rw [verifyPairsLoop] at hs
    have ihrest := ih (fun q hq => h q (List.mem_cons_of_mem _ hq))
    by_cases hd : p.dirOk = true
    · rw [if_neg (by simp [hd])] at hs
      cases hf : verifyFilesLoop p.files with
      | error t =>
        exact verifyFilesLoop_noCrash p.files
          (fun f hmem => h p (List.mem_cons_self p rest) f hmem) t hf
      | ok t =>
        rw [hf] at hs
        cases hrest : verifyPairsLoop rest with
        | error u => exact ihrest u hrest
        | ok u => rw [hrest] at hs; exact absurd hs (by simp [vPrepend])
    · rw [if_pos (by simpa using hd)] at hs
      cases hrest : verifyPairsLoop rest with
      | error u => exact ihrest u hrest
      | ok u => rw [hrest] at hs; exact absurd hs (by simp [vPrepend])

theorem uploadFilesLoop_allOk (files : List UploadFileW)
    (h : ∀ f ∈ files, f.relOk = true ∧ f.uploadOk = true) :
    ∀ e, uploadFilesLoop files ≠ .error e := by
  induction files with
  | nil => intro e he; exact absurd he (by simp [uploadFilesLoop])
  | cons f rest ih =>
    intro e he
    rw [uploadFilesLoop,
      if_neg (by simp [(h f (List.mem_cons_self f rest)).1]),
      if_neg (by simp [(h f (List.mem_cons_self f rest)).2])] at he
    cases hrest : uploadFilesLoop rest with
    | error t => exact ih (fun g hg => h g (List.mem_cons_of_mem _ hg)) t hrest
    | ok t => rw [hrest] at he; exact absurd he (by simp [uPrepend])

theorem uploadPairsLoop_allOk (pairs : List UploadPairW)
    (h : uAllOk pairs) : ∀ e, uploadPairsLoop pairs ≠ .error e := by
  induction pairs with
  | nil => intro e he; exact absurd he (by simp [uploadPairsLoop])
  | cons p rest ih =>
    intro e he
    rw [uploadPairsLoop] at he
    have ihrest := ih (fun q hq => h q (List.mem_cons_of_mem _ hq))
    by_cases hd : p.dirOk = true
    · rw [if_neg (by simp [hd])] at he
      cases hf : uploadFilesLoop p.files with
      | error t =>
        exact uploadFilesLoop_allOk p.files
          (fun f hmem => h p (List.mem_cons_self p rest) f hmem) t hf
      | ok t =>
        rw [hf] at he
        cases hrest : uploadPairsLoop rest with
        | error u => exact ihrest u hrest
        | ok u => rw [hrest] at he; exact absurd he (by simp [uPrepend])
    · rw [if_pos (by simpa using hd)] at he
      cases hrest : uploadPairsLoop rest with
      | error u => exact ihrest u hrest
      | ok u => rw [hrest] at he; exact absurd he (by simp [uPrepend])

/-- C3 (amended): exit statuses of the two scripts.  The verify-and-delete
script returns 1 when no directory pair resolved or client construction
fails, and 0 whenever every file's relative path resolves — per-file check
and deletion failures never change its status.  The upload script exits 1 on
lock-acquisition failure and 0 when every upload succeeds; but a client
construction failure or an empty pair list also exits 0 there, and an
escaped per-file failure (failed upload or relative-path computation) exits
1. -/
theorem claim_C3 :
    (∀ clientOk, remove_local_main clientOk [] = ⟨[], 0, 0, 1⟩) ∧
    (∀ pairs, pairs ≠ [] → remove_local_main false pairs = ⟨[], 0, 0, 1⟩) ∧
    (∀ pairs, pairs ≠ [] → vNoCrash pairs →
      (remove_local_main true pairs).exitCode = 0) ∧
    (∀ clientOk pairs, (run_main true clientOk pairs).2.2 = 1) ∧
    (∀ pairs, (run_main false false pairs).2.2 = 0) ∧
    (∀ pairs, uAllOk pairs → (run_main false true pairs).2.2 = 0) ∧
    (∀ pairs e, pairs ≠ [] → uploadPairsLoop pairs = .error e →
      (run_main false true pairs).2.2 = 1) := by
  refine ⟨?_, ?_, ?_, ?_, ?_, ?_, ?_⟩
  · intro clientOk
    rfl
  · intro pairs hne
    unfold remove_local_main
    rw [if_neg hne, if_pos (by simp)]
  · intro pairs hne h
    cases hv : verifyPairsLoop pairs with
    | error s => exact absurd hv (verifyPairsLoop_noCrash pairs h s)
    | ok s =>
      unfold remove_local_main
      rw [if_neg hne, if_neg (by simp), hv]
  · intro clientOk pairs
    rfl
  · intro pairs
    simp [run_main, run_upload]
  · intro pairs h
    unfold run_main
    rw [if_neg (by simp)]
    by_cases hne : pairs = []
    · simp [run_upload, hne]
    · cases hv : uploadPairsLoop pairs with
      | error e => exact absurd hv (uploadPairsLoop_allOk pairs h e)
      | ok e => simp [run_upload, hne, hv]
  · intro pairs e hne he
    unfold run_main
    rw [if_neg (by simp)]
    simp [run_upload, hne, he]

/-- C3 witness: `claim_C3` applied at concrete worlds — one pair whose only
file fails its remote check and its deletion still yields exit 0 in
verify-and-delete mode; a pair whose only file fails to upload yields
exit 1 in upload mode. -/
theorem claim_C3_witness :
    remove_local_main false [⟨true, []⟩] = ⟨[], 0, 0, 1⟩ ∧
    (remove_local_main true
        [⟨true, [⟨['a'], true, Except.error (), false⟩]⟩]).exitCode = 0 ∧
    (run_main false true [⟨true, [⟨['a'], true, false, true⟩]⟩]).2.2 = 1 :=
  ⟨claim_C3.2.1 [⟨true, []⟩] (by decide),
    claim_C3.2.2.1 [⟨true, [⟨['a'], true, Except.error (), false⟩]⟩]
      (by decide)
      (by intro p hp f hf; simp at hp; subst hp; simp at hf; subst hf; rfl),
    claim_C3.2.2.2.2.2.2 [⟨true, [⟨['a'], true, false, true⟩]⟩]
      [.uploadStarted ['a']] (by decide) (by decide)⟩

/-! ## Claim C7: deterministic sorted traversal -/

instance : IsAntisymm FName fnameLe := ⟨fun _ _ => le_antisymm⟩

theorem walkChildren_ofList (l : List (FName × FsTree)) :
    walkChildren (ofList l) =
      l.map (fun p => (p.1, iter_files_sorted p.2)) := by
  induction l with
  | nil => rfl
  | cons p rest ih =>
    cases p with
    | mk n t => simp [ofList, walkChildren, ih]

/-- Sorting pairs by name commutes with a name-preserving map of payloads. -/
theorem insertionSort_byName_map {α β : Type} (g : FName × α → FName × β)
    (hg : ∀ p, (g p).1 = p.1) (l : List (FName × α)) :
    (l.map g).insertionSort byName = (l.insertionSort byName).map g := by
  refine (List.map_insertionSort _ _ g l ?_).symm
  intro a _ b _
  unfold byName
  rw [hg a, hg b]

/-- Sorting is idempotent. -/
theorem insertionSort_fnameLe_idem (l : List FName) :
    (l.insertionSort fnameLe).insertionSort fnameLe =
      l.insertionSort fnameLe :=
  (List.sorted_insertionSort fnameLe l).insertionSort_eq

instance {β : Type} : IsTotal (FName × β) byName := ⟨fun a b => le_total a.1 b.1⟩

instance {β : Type} : IsTrans (FName × β) byName := ⟨fun _ _ _ => le_trans⟩

theorem insertionSort_byName_idem {β : Type} (l : List (FName × β)) :
    (l.insertionSort byName).insertionSort byName =
      l.insertionSort byName :=
  (List.sorted_insertionSort byName l).insertionSort_eq

mutual
/-- The traversal of a tree depends only on its canonical form. -/
theorem iter_canon : ∀ t : FsTree,
    iter_files_sorted (canonTree t) = iter_files_sorted t
  | .node files subdirs => by
    have hpairs := canonPairs_iter subdirs
    show iter_files_sorted
        (.node (files.insertionSort fnameLe)
          (ofList ((canonPairs subdirs).insertionSort byName))) =
      iter_files_sorted (.node files subdirs)
    rw [iter_files_sorted, iter_files_sorted, insertionSort_fnameLe_idem,
      walkChildren_ofList,
      ← insertionSort_byName_map (fun p => (p.1, iter_files_sorted p.2))
        (fun _ => rfl) (canonPairs subdirs),
      insertionSort_byName_idem, hpairs]
/-- The walks of canonicalized children equal the walks of the children. -/
theorem canonPairs_iter : ∀ f : FsForest,
    (canonPairs f).map (fun p => (p.1, iter_files_sorted p.2)) =
      walkChildren f
  | .nil => rfl
  | .cons n t rest => by
    have h1 := iter_canon t
    have h2 := canonPairs_iter rest
    simp only [canonPairs, walkChildren, List.map_cons, h1, h2]
end

/-- C7: `iter_files_sorted` emits, for each directory, its file names in
sorted order followed by its subdirectories' walks in sorted name order
(depth first); consequently the emitted sequence depends only on the tree's
canonical form, so two walks of the same unchanged tree — however the
operating system happens to order each directory listing — yield exactly
the same sequence of paths. -/
theorem claim_C7 :
    (∀ t₁ t₂ : FsTree, canonTree t₁ = canonTree t₂ →
      iter_files_sorted t₁ = iter_files_sorted t₂) ∧
    (∀ (files : List FName) (subdirs : FsForest),
      iter_files_sorted (.node files subdirs) =
        ((files.insertionSort fnameLe).map (fun f => [f])) ++
          ((walkChildren subdirs).insertionSort byName).flatMap
            (fun x => x.2.map (fun p => x.1 :: p)) ∧
      List.Sorted fnameLe (files.insertionSort fnameLe) ∧
      List.Sorted byName ((walkChildren subdirs).insertionSort byName)) := by
  constructor
  · intro t1 t2 h
    rw [← iter_canon t1, h, iter_canon t2]
  · intro files subdirs
    exact ⟨rfl, List.sorted_insertionSort fnameLe files,
      List.sorted_insertionSort byName (walkChildren subdirs)⟩

/-- C7 witness: `claim_C7` applied to two enumerations of the same tree
(`{a, b, d/x, c/}` with sibling lists presented in different orders): their
canonical forms coincide, so the emitted sequences are equal. -/
theorem claim_C7_witness :
    iter_files_sorted
        (.node [['b'], ['a']]
          (.cons ['d'] (.node [['x']] .nil)
            (.cons ['c'] (.node [] .nil) .nil))) =
      iter_files_sorted
        (.node [['a'], ['b']]
          (.cons ['c'] (.node [] .nil)
            (.cons ['d'] (.node [['x']] .nil) .nil))) :=
  claim_C7.1
    (.node [['b'], ['a']]
      (.cons ['d'] (.node [['x']] .nil) (.cons ['c'] (.node [] .nil) .nil)))
    (.node [['a'], ['b']]
      (.cons ['c'] (.node [] .nil) (.cons ['d'] (.node [['x']] .nil) .nil)))
    (by rfl)

/-! ## Claim C8: `remove_empty_directories` safety -/

theorem FsForest_isNil_eq {f : FsForest} (h : f.isNil = true) : f = .nil := by
  cases f with
  | nil => rfl
  | cons n t r => simp [FsForest.isNil] at h

mutual
/-- The number of directories removed by the prune pass is exactly the
drop in the directory count. -/
theorem pruneTree_count (oracle : List FName → Bool) (path : List FName) :
    ∀ t : FsTree, dirCount t =
      (pruneTree oracle path t).2 + optDirCount (pruneTree oracle path t).1
  | .node files subdirs => by
    have hf := pruneForest_count oracle path subdirs
    simp only [pruneTree, dirCount]
    split_ifs with h1 h2 h3
    · simp [optDirCount, dirCount]; omega
    · simp [optDirCount, dirCount]; omega
    · have hnil : (pruneForest oracle path subdirs).1 = .nil :=
        FsForest_isNil_eq h2
      rw [hnil] at hf
      simp only [forestDirCount] at hf
      simp [optDirCount]
      omega
    · simp [optDirCount, dirCount]; omega
/-- The forest version of `pruneTree_count`. -/
theorem pruneForest_count (oracle : List FName → Bool) (path : List FName) :
    ∀ f : FsForest, forestDirCount f =
      (pruneForest oracle path f).2 +
        forestDirCount (pruneForest oracle path f).1
  | .nil => by simp [pruneForest, forestDirCount]
  | .cons n t rest => by
    have ht := pruneTree_count oracle (path ++ [n]) t
    have hr := pruneForest_count oracle path rest
    simp only [pruneForest, forestDirCount]
    cases hp : (pruneTree oracle (path ++ [n]) t).1 with
    | none =>
      rw [hp] at ht
      simp only [optDirCount] at ht
      simp [forestDirCount]
      omega
    | some t2 =>
      rw [hp] at ht
      simp only [optDirCount] at ht
      simp [forestDirCount]
      omega
end

mutual
/-- A directory whose subtree contains a file is never removed. -/
theorem pruneTree_keeps_files (oracle : List FName → Bool) (path : List FName) :
    ∀ t : FsTree, hasFileSomewhere t = true →
      (pruneTree oracle path t).1 ≠ none
  | .node files subdirs => by
    intro h
    simp only [hasFileSomewhere, Bool.or_eq_true] at h
    simp only [pruneTree]
    split_ifs with h1 h2 h3 <;> try simp
    have hnil : (pruneForest oracle path subdirs).1 = .nil :=
      FsForest_isNil_eq h2
    rcases h with h | h
    · exact absurd (by simpa using h) (by simpa using h1)
    · exact absurd hnil (pruneForest_keeps_files oracle path subdirs h)
/-- A forest containing a file somewhere never prunes to the empty forest. -/
theorem pruneForest_keeps_files (oracle : List FName → Bool)
    (path : List FName) :
    ∀ f : FsForest, forestHasFile f = true →
      (pruneForest oracle path f).1 ≠ .nil
  | .nil => by intro h; simp [forestHasFile] at h
  | .cons n t rest => by
    intro h
    simp only [forestHasFile, Bool.or_eq_true] at h
    simp only [pruneForest]
    rcases h with h | h
    · have := pruneTree_keeps_files oracle (path ++ [n]) t h
      cases hp : (pruneTree oracle (path ++ [n]) t).1 with
      | none => exact absurd hp this
      | some t2 => simp
    · have := pruneForest_keeps_files oracle path rest h
      cases hp : (pruneTree oracle (path ++ [n]) t).1 with
      | none => simpa using this
      | some t2 => simp
end

/-- A directory at which `rmdir` would fail (a race) is kept, not removed,
and the failure does not propagate. -/
theorem pruneTree_oracle_keeps (oracle : List FName → Bool)
    (path : List FName) (t : FsTree) (h : oracle path = true) :
    (pruneTree oracle path t).1 ≠ none := by
  cases t with
  | node files subdirs =>
    simp only [pruneTree]
    split_ifs with h1 h2 h3 <;> simp_all

/-- A kept directory keeps exactly its files. -/
theorem pruneTree_some_files (oracle : List FName → Bool) (path : List FName)
    (t : FsTree) (t2 : FsTree) (h : (pruneTree oracle path t).1 = some t2) :
    t2 = .node (filesOf t)
      (pruneForest oracle path
        (match t with | .node _ subdirs => subdirs)).1 := by
  cases t with
  | node files subdirs =>
    simp only [pruneTree] at h
    split_ifs at h with h1 h2 h3 <;>
      simp only [Option.some.injEq] at h <;>
      simp [← h, filesOf]

theorem findForest_some_not_nil {n : FName} {f : FsForest} {t : FsTree}
    (h : findForest n f = some t) : f.isNil = false := by
  cases f with
  | nil => simp [findForest] at h
  | cons m t2 r => rfl

/-- A surviving subdirectory is found under its name in the pruned forest. -/
theorem findForest_prune (oracle : List FName → Bool) (path : List FName)
    (n : FName) :
    ∀ (f : FsForest) (tc : FsTree), findForest n f = some tc →
      ∀ tc2, (pruneTree oracle (path ++ [n]) tc).1 = some tc2 →
        findForest n (pruneForest oracle path f).1 = some tc2
  | .nil => by intro tc h; simp [findForest] at h
  | .cons m t rest => by
    intro tc hfind tc2 hprune
    simp only [findForest] at hfind
    by_cases hm : m = n
    · rw [if_pos hm] at hfind
      subst hm
      rw [Option.some.injEq] at hfind
      subst hfind
      simp only [pruneForest]
      rw [hprune]
      simp [findForest]
    · rw [if_neg hm] at hfind
      have ih := findForest_prune oracle path n rest tc hfind tc2 hprune
      simp only [pruneForest]
      cases hp : (pruneTree oracle (path ++ [m]) t).1 with
      | none => simpa using ih
      | some t3 => simp [findForest, hm, ih]

/-- A directory that contains a file somewhere, or at which removal would
fail, survives the prune pass with its files, and remains reachable along
the same path. -/
theorem lookup_prune (oracle : List FName → Bool) :
    ∀ (p pref : List FName) (t t' : FsTree), lookupDir p t = some t' →
      (hasFileSomewhere t' = true ∨ oracle (pref ++ p) = true) →
      ∃ t2, (pruneTree oracle pref t).1 = some t2 ∧
        ∃ t'', lookupDir p t2 = some t'' ∧ filesOf t'' = filesOf t' := by
  intro p
  induction p with
  | nil =>
    intro pref t t' hl hcond
    rw [lookupDir, Option.some.injEq] at hl
    subst hl
    have hkeep : (pruneTree oracle pref t).1 ≠ none := by
      rcases hcond with h | h
      · exact pruneTree_keeps_files oracle pref t h
      · exact pruneTree_oracle_keeps oracle pref t (by simpa using h)
    cases hp : (pruneTree oracle pref t).1 with
    | none => exact absurd hp hkeep
    | some t2 =>
      refine ⟨t2, rfl, t2, rfl, ?_⟩
      rw [pruneTree_some_files oracle pref t t2 hp]
      cases t with
      | node files subdirs => rfl
  | cons n rest ih =>
    intro pref t t' hl hcond
    cases t with
    | node files subdirs =>
      rw [lookupDir] at hl
      cases hfind : findForest n subdirs with
      | none => rw [hfind] at hl; exact absurd hl (by simp)
      | some tc =>
        rw [hfind] at hl
        have hcond2 : hasFileSomewhere t' = true ∨
            oracle ((pref ++ [n]) ++ rest) = true := by
          rcases hcond with h | h
          · exact Or.inl h
          · refine Or.inr ?_
            rwa [List.append_assoc, List.singleton_append]
        obtain ⟨tc2, htc2, t'', ht'', hfiles⟩ :=
          ih (pref ++ [n]) tc t' hl hcond2
        have hfound := findForest_prune oracle pref n subdirs tc hfind tc2 htc2
        have hnotnil : ((pruneForest oracle pref subdirs).1).isNil = false :=
          findForest_some_not_nil hfound
        refine ⟨.node files (pruneForest oracle pref subdirs).1, ?_, t'', ?_,
          hfiles⟩
        · simp only [pruneTree]
          split_ifs with h1 h2 h3 <;> first | rfl | simp_all
        · rw [lookupDir, hfound]
          exact ht''

/-- C8: with `preserve_root = true` the root is never removed and keeps its
files; the returned count is exactly the number of directories removed
(the drop in the directory count); and any directory that contains a file
somewhere in its subtree — or whose removal attempt fails due to a race
(the `OSError` is silently skipped) — is still present afterwards, with
its files, at its original path. -/
theorem claim_C8 :
    (∀ (oracle : List FName → Bool) (t : FsTree),
      (remove_empty_directories true oracle t).1 =
        some (.node (filesOf t)
          (pruneForest oracle []
            (match t with | .node _ subdirs => subdirs)).1) ∧
      dirCount t = (remove_empty_directories true oracle t).2 +
        dirCount (.node (filesOf t)
          (pruneForest oracle []
            (match t with | .node _ subdirs => subdirs)).1)) ∧
    (∀ (oracle : List FName → Bool) (t : FsTree) (p : List FName)
        (t' : FsTree), lookupDir p t = some t' →
      (hasFileSomewhere t' = true ∨ oracle p = true) →
      ∃ troot, (remove_empty_directories true oracle t).1 = some troot ∧
        ∃ t'', lookupDir p troot = some t'' ∧ filesOf t'' = filesOf t') := by
  constructor
  · intro oracle t
    cases t with
    | node files subdirs =>
      refine ⟨rfl, ?_⟩
      have hf := pruneForest_count oracle [] subdirs
      simp [remove_empty_directories, dirCount, filesOf]
      omega
  · intro oracle t p t' hl hcond
    cases t with
    | node files subdirs =>
      cases p with
      | nil =>
        rw [lookupDir, Option.some.injEq] at hl
        subst hl
        exact ⟨_, rfl, _, rfl, rfl⟩
      | cons n rest =>
        rw [lookupDir] at hl
        cases hfind : findForest n subdirs with
        | none => rw [hfind] at hl; exact absurd hl (by simp)
        | some tc =>
          rw [hfind] at hl
          have hcond2 : hasFileSomewhere t' = true ∨
              oracle ([n] ++ rest) = true := by
            rcases hcond with h | h
            · exact Or.inl h
            · exact Or.inr (by simpa using h)
          obtain ⟨tc2, htc2, t'', ht'', hfiles⟩ :=
            lookup_prune oracle rest [n] tc t' hl hcond2
          have htc2' : (pruneTree oracle ([] ++ [n]) tc).1 = some tc2 := htc2
          have hfound := findForest_prune oracle [] n subdirs tc hfind tc2 htc2'
          refine ⟨.node files (pruneForest oracle [] subdirs).1, rfl, t'', ?_,
            hfiles⟩
          rw [lookupDir, hfound]
          exact ht''

/-- C8 witness: `claim_C8` applied to the concrete tree
`{a/f, b/}` with no removal races: `b` is the one directory removed, the
count is 1, and `a` (which contains the file `f`) survives at its path. -/
theorem claim_C8_witness :
    (remove_empty_directories true (fun _ => false)
        (.node [] (.cons ['a'] (.node [['f']] .nil)
          (.cons ['b'] (.node [] .nil) .nil)))).2 = 1 ∧
    (∃ troot, (remove_empty_directories true (fun _ => false)
        (.node [] (.cons ['a'] (.node [['f']] .nil)
          (.cons ['b'] (.node [] .nil) .nil)))).1 = some troot ∧
      ∃ t'', lookupDir [['a']] troot = some t'' ∧
        filesOf t'' = filesOf (.node [['f']] .nil)) := by
  constructor
  · rfl
  · exact claim_C8.2 (fun _ => false)
      (.node [] (.cons ['a'] (.node [['f']] .nil)
        (.cons ['b'] (.node [] .nil) .nil)))
      [['a']] (.node [['f']] .nil) (by rfl) (Or.inl (by rfl))
